import Mathlib

/-
Verification of the event-driven hard-disk simulator `eight-ball`.

Embedding conventions:
* IEEE-754 doubles (`f64`) are modelled by exact rationals (`ℚ`): the spec's
  numerical claims are about the real-arithmetic behaviour of the algorithms,
  and the code's comparisons (`==`, `<`, ULP-closeness) collapse to the
  corresponding exact comparisons in this shadow.  Where a claim genuinely
  depends on the square root being exact, the theorem carries that as an
  explicit hypothesis.
* `f64::sqrt` is modelled by `fsqrt`, an executable integer-bisection square
  root on numerator and denominator; it agrees with the real square root
  exactly whenever the argument is the square of a rational.
* `BinaryHeap<Reverse<CollisionEvent>>` is modelled by the list of its
  elements: `push` adds an element, `queue_pop` removes an element of least
  scheduled time (the heap's tie-break between equal keys is arbitrary).
* Fallible Rust code (`Option` / `Result<_, DynamicsError>`) becomes
  `Option` / `Except DynamicsError`; `&mut self` methods return the new state.
* The `while` loop of `next_collision_or_err` is modelled by fuelled
  iteration; see the doc comment there.

Rust sources embedded: `src/dynamics/maths.rs`, `src/dynamics/ball.rs`,
`src/dynamics/centre.rs`, `src/dynamics/collide.rs`, `src/dynamics/mod.rs`,
`src/simulation/simulate.rs`, `src/simulation/collision.rs`,
`src/simulation/mod.rs`.
-/

namespace EightBall

/-- `FloatVec` (src/dynamics/maths.rs): a pair of doubles, modelled with exact
rationals. -/
structure FloatVec where
  x : ℚ
  y : ℚ
deriving DecidableEq

instance : Inhabited FloatVec := ⟨⟨0, 0⟩⟩

/-- `impl Add for FloatVec` (maths.rs): componentwise addition. -/
instance : Add FloatVec := ⟨fun a b => ⟨a.x + b.x, a.y + b.y⟩⟩

/-- `impl Sub for FloatVec` (maths.rs): componentwise subtraction. -/
instance : Sub FloatVec := ⟨fun a b => ⟨a.x - b.x, a.y - b.y⟩⟩

/-- `impl Mul<f64> for FloatVec` (maths.rs): scalar multiplication. -/
instance : HMul FloatVec ℚ FloatVec := ⟨fun v c => ⟨v.x * c, v.y * c⟩⟩

/-- `impl Mul<FloatVec> for f64` (maths.rs): `c * v = v * c`. -/
instance : HMul ℚ FloatVec FloatVec := ⟨fun c v => v * c⟩

/-- `impl Div<f64> for FloatVec` (maths.rs): componentwise scalar division. -/
instance : HDiv FloatVec ℚ FloatVec := ⟨fun v c => ⟨v.x / c, v.y / c⟩⟩

/-- Componentwise negation (not a Rust impl; used only for stating lemmas). -/
instance : Neg FloatVec := ⟨fun v => ⟨-v.x, -v.y⟩⟩

/-- `FloatVec::origin` (maths.rs). -/
def FloatVec.origin : FloatVec := ⟨0, 0⟩

/-- `FloatVec::dot` (maths.rs). -/
def FloatVec.dot (a b : FloatVec) : ℚ := a.x * b.x + a.y * b.y

/-- `FloatVec::cross_squared` (maths.rs): square of the 2-D scalar cross
product. -/
def FloatVec.cross_squared (a b : FloatVec) : ℚ :=
  (a.x * b.y - a.y * b.x) * (a.x * b.y - a.y * b.x)

/-- `FloatVec::anti_clockwise_perpendicular` (maths.rs): `(x, y) ↦ (-y, x)`. -/
def FloatVec.anti_clockwise_perpendicular (v : FloatVec) : FloatVec := ⟨-v.y, v.x⟩

/-- `FloatVec::approx_eq` / `approx_eq_f64` (maths.rs): equality to within
`ulp` units in the last place of the raw bit patterns.  In the exact-rational
shadow, doubles that are within 1 ULP of each other collapse to the same
rational, so closeness within the (always small) tolerance is modelled as
exact equality; the `ulp` argument is kept only for the call shape. -/
def FloatVec.approx_eq (a b : FloatVec) (ulp : ℕ) : Bool := a = b

/-- Bisection step for the integer square root: maintains `lo^2 ≤ n < hi^2`
and halves the interval; the fuel only bounds the number of halvings. -/
def sqrt_go (n : ℕ) : ℕ → ℕ → ℕ → ℕ
  | 0, lo, _ => lo
  | fuel + 1, lo, hi =>
    if hi ≤ lo + 1 then lo
    else
      let m := (lo + hi) / 2
      if m * m ≤ n then sqrt_go n fuel m hi else sqrt_go n fuel lo m

/-- Executable integer square root (rounded down) by bisection. -/
def nat_sqrt (n : ℕ) : ℕ := sqrt_go n (n + 2) 0 (n + 1)

/-- Models `f64::sqrt` in the exact-rational shadow: the square root of a
nonnegative rational, computed exactly whenever the argument is the square of
a rational (numerator and denominator of the reduced form are then perfect
squares).  Claims that need `fsqrt d * fsqrt d = d` state it as a hypothesis;
every concrete instance in this file satisfies it. -/
def fsqrt (q : ℚ) : ℚ := (nat_sqrt q.num.toNat : ℚ) / (nat_sqrt q.den : ℚ)

/-- `DynamicsError` (src/dynamics/mod.rs). -/
inductive DynamicsError where
  | StationaryCollision
  | PointParticleCollision
  | IntersectingParticles
  | SimulationFailure
deriving DecidableEq

deriving instance DecidableEq for Except

/-- `Ball` (src/dynamics/ball.rs): position, velocity, radius. -/
structure Ball where
  pos : FloatVec
  vel : FloatVec
  r : ℚ
deriving DecidableEq

/-- Rust `Ball` derives `Default`: all fields zero. -/
instance : Inhabited Ball := ⟨⟨FloatVec.origin, FloatVec.origin, 0⟩⟩

/-- Modelled from the spec: the `Container` struct definition itself is not
among the provided sources, only its uses are (`Container::new(radius)`,
`other.r` in the collision kernel, `impl Centre for Container` returning the
origin).  Spec §3: "Container — (r: double > 0), centered at origin.
Immutable after construction except for a single optional observation sink
handle."  The observation sink plays no role in the dynamics and is omitted. -/
structure Container where
  r : ℚ
deriving DecidableEq

/-- `Container::new(radius)` as called from `Simulation::new` (simulate.rs);
the optional observation sink argument is omitted (see `Container`). -/
def Container.new (radius : ℚ) : Container := ⟨radius⟩

/-- `Ball::step` (ball.rs): free flight, `pos += vel * t`. -/
def Ball.step (b : Ball) (t : ℚ) : Ball := { b with pos := b.pos + b.vel * t }

/-- `smallest_positive` (src/dynamics/collide.rs): select the smallest
root that is positive, else the other if positive, else `None`.

The source tests `f64::is_sign_positive` on `a.min(b)` / `a.max(b)`.  Both
arguments at the call sites have the form `-(u + s) / A` and `-(u - s) / A`:
when such a value is exactly zero its IEEE sign bit is negative (the leading
negation of an exactly-zero sum yields `-0.0`, and division by the positive
`A` preserves the sign), so `is_sign_positive` is `0 < ·` in the exact
model — an exactly-zero root is rejected, matching the source comment "If
time to collision is 0, we also say that they don't collide". -/
def smallest_positive (a b : ℚ) : Option ℚ :=
  let x_min := min a b
  let x_max := max a b
  if 0 < x_min then some x_min
  else if 0 < x_max then some x_max
  else none

/-- `<Ball as Collide<Ball>>::time_to_collision` (collide.rs lines 16-35). -/
def Ball.time_to_collision (self other : Ball) : Option ℚ :=
  let dr := self.pos - other.pos
  let dv := self.vel - other.vel
  let dv_squared := dv.dot dv
  let lhs := dv_squared * (self.r + other.r) * (self.r + other.r)
  let rhs := dr.cross_squared dv
  if lhs < rhs then none
  else
    let disc := lhs - rhs
    let r1 := -(dv.dot dr + fsqrt disc) / dv_squared
    let r2 := -(dv.dot dr - fsqrt disc) / dv_squared
    smallest_positive r1 r2

/-- `<Ball as Collide<Container>>::time_to_collision` (collide.rs lines
60-80); named after the Python binding `time_to_container_collision`
(dynamics/mod.rs). -/
def Ball.time_to_container_collision (self : Ball) (other : Container) : Option ℚ :=
  let dr := self.pos
  let dv := self.vel
  let dv_squared := dv.dot dv
  let lhs := dv_squared * (self.r - other.r) * (self.r - other.r)
  let rhs := dr.cross_squared dv
  if lhs < rhs then none
  else
    let disc := lhs - rhs
    let r1 := -(dv.dot dr + fsqrt disc) / dv_squared
    let r2 := -(dv.dot dr - fsqrt disc) / dv_squared
    smallest_positive r1 r2

/-- `normalised_difference` (src/dynamics/centre.rs): the unit vector from
centre `b` towards centre `a`, or `IntersectingParticles` when the centres
coincide to within 1 ULP.  `Centre::get_centre` is the ball's position for a
`Ball` and the origin for the `Container`; the centres are passed here
directly. -/
def normalised_difference (centre_a centre_b : FloatVec) : Except DynamicsError FloatVec :=
  if FloatVec.approx_eq centre_a centre_b 1 then
    .error .IntersectingParticles
  else
    let diff := centre_a - centre_b
    let diff_squared := diff.dot diff
    .ok (diff / fsqrt diff_squared)

/-- `<Ball as Collide<Ball>>::collide` (collide.rs lines 37-57): line-of-
centres elastic collision, swapping the normal velocity components.  The Rust
method mutates both balls through `&mut`; the model returns the outcome
together with the post-call values of both balls (unchanged when the kernel
reports an error, since the source returns before any `set_vel`). -/
def Ball.collide (self other : Ball) : Except DynamicsError Unit × Ball × Ball :=
  match normalised_difference self.pos other.pos with
  | .error e => (.error e, self, other)
  | .ok normed_normal =>
    let loc := normed_normal.anti_clockwise_perpendicular
    let alpha_1 := self.vel.dot loc
    let beta_1 := self.vel.dot normed_normal
    let alpha_2 := other.vel.dot loc
    let beta_2 := other.vel.dot normed_normal
    (.ok (),
     { self with vel := alpha_1 * loc + beta_2 * normed_normal },
     { other with vel := alpha_2 * loc + beta_1 * normed_normal })

/-- `<Ball as Collide<Container>>::collide` (collide.rs lines 82-94):
specular reflection of the normal component.  Returns the outcome and the
post-call ball (the container is not mutated). -/
def Ball.container_collide (self : Ball) (other : Container) : Except DynamicsError Unit × Ball :=
  match normalised_difference self.pos FloatVec.origin with
  | .error e => (.error e, self)
  | .ok normed_normal =>
    let loc := normed_normal.anti_clockwise_perpendicular
    let alpha := self.vel.dot loc
    let beta := self.vel.dot normed_normal
    (.ok (), { self with vel := alpha * loc - beta * normed_normal })

/-- `CollisionPartner` (src/simulation/collision.rs): a ball index or the
container. -/
inductive CollisionPartner where
  | Ball (j : ℕ)
  | Container
deriving DecidableEq

/-- `CollisionEvent` (src/simulation/collision.rs): a scheduled contact with
the participants' velocities at scheduling time as the freshness witness (for
a container partner the second witness velocity is the origin). -/
structure CollisionEvent where
  i : ℕ
  j : CollisionPartner
  t : ℚ
  old_vels : FloatVec × FloatVec
deriving DecidableEq

/-- `CollisionEvent::new` (collision.rs). -/
def CollisionEvent.new (i : ℕ) (j : CollisionPartner) (t : ℚ)
    (old_vels : FloatVec × FloatVec) : CollisionEvent :=
  ⟨i, j, t, old_vels⟩

/-- Pop from the collision queue, modelling
`BinaryHeap<Reverse<CollisionEvent>>::pop`: removes an element of least
scheduled time (`Ord for CollisionEvent` compares by `t`; the tie-break
between equal times is arbitrary in the heap and leftmost here). -/
def queue_pop : List CollisionEvent → Option (CollisionEvent × List CollisionEvent)
  | [] => none
  | e :: rest =>
    match queue_pop rest with
    | none => some (e, [])
    | some (m, rest') => if e.t ≤ m.t then some (e, rest) else some (m, e :: rest')

/-- `Params` (simulate.rs): the safety-factor configuration. -/
structure Params where
  delta : ℚ
deriving DecidableEq

/-- `Simulation` (src/simulation/simulate.rs). -/
structure Simulation where
  global_time : ℚ
  params : Params
  container : Container
  balls : List Ball
  collisions : List CollisionEvent
deriving DecidableEq

namespace Simulation

/-- `Simulation::new` (simulate.rs): empty simulator, `global_time = 0`,
`delta = 1e-6`. -/
def new (radius : ℚ) : Simulation :=
  { global_time := 0
    params := ⟨1 / 1000000⟩
    container := Container.new radius
    balls := []
    collisions := [] }

/-- Indexing `self.balls[i]`.  Rust `Vec` indexing panics when out of range;
every event in the queue carries indices of balls present when it was pushed
(and `balls` never shrinks), so in-range access is the only behaviour
exercised.  `List.getD` totalises the model with `Ball::default`. -/
def ball_at (s : Simulation) (i : ℕ) : Ball := s.balls.getD i default

/-- `Simulation::add_balls` (src/simulation/mod.rs): append balls to the
sequence. -/
def add_balls (s : Simulation) (balls : List Ball) : Simulation :=
  { s with balls := s.balls ++ balls }

/-- `Simulation::calculate_collision_event` (simulate.rs lines 42-52). -/
def calculate_collision_event (s : Simulation) (i j : ℕ) : Option CollisionEvent :=
  let p := s.ball_at i
  let q := s.ball_at j
  match p.time_to_collision q with
  | none => none
  | some time_to_collision_relative =>
    some (CollisionEvent.new i (.Ball j) (s.global_time + time_to_collision_relative)
      (p.vel, q.vel))

/-- `Simulation::calculate_container_collision` (simulate.rs lines 54-62). -/
def calculate_container_collision (s : Simulation) (i : ℕ) : Option CollisionEvent :=
  let ball := s.ball_at i
  match ball.time_to_container_collision s.container with
  | none => none
  | some time_to_collision_relative =>
    some (CollisionEvent.new i .Container (s.global_time + time_to_collision_relative)
      (ball.vel, FloatVec.origin))

/-- `(0..n).combinations(2)` (itertools, used in `generate_collision_queue`):
all index pairs `i < j` in lexicographic order. -/
def index_pairs (n : ℕ) : List (ℕ × ℕ) :=
  (List.range n).flatMap fun i => (List.range' (i + 1) (n - (i + 1))).map fun j => (i, j)

/-- Push an optional event onto the queue: the body of each
`if let Some(collision_event) = ... { queue.push(...) }` in simulate.rs. -/
def push_opt (q : List CollisionEvent) : Option CollisionEvent → List CollisionEvent
  | some collision_event => collision_event :: q
  | none => q

/-- `Simulation::generate_collision_queue` (simulate.rs lines 64-77):
push the candidate event of every unordered ball pair.  Only `collisions`
is mutated, so the events are computed against the unchanged `s`. -/
def generate_collision_queue (s : Simulation) : Simulation :=
  let queue := (index_pairs s.balls.length).foldl
    (fun q ij => push_opt q (s.calculate_collision_event ij.1 ij.2)) s.collisions
  { s with collisions := queue }

/-- `Simulation::generate_container_collisions` (simulate.rs lines 79-89). -/
def generate_container_collisions (s : Simulation) : Simulation :=
  let queue := (List.range s.balls.length).foldl
    (fun q i => push_opt q (s.calculate_container_collision i)) s.collisions
  { s with collisions := queue }

/-- `Simulation::initialise` (src/simulation/mod.rs lines 40-46). -/
def initialise (s : Simulation) : Simulation :=
  s.generate_collision_queue.generate_container_collisions

/-- `Simulation::push_collisions` (simulate.rs lines 91-111): re-schedule all
candidate events involving ball `i` (pairs `j < i`, then `i+1 ≤ j < n`, then
the container).  Only `collisions` is mutated. -/
def push_collisions (s : Simulation) (i : ℕ) : Simulation :=
  let n := s.balls.length
  let q1 := (List.range i).foldl (fun q j => push_opt q (s.calculate_collision_event i j))
    s.collisions
  let q2 := (List.range' (i + 1) (n - (i + 1))).foldl
    (fun q j => push_opt q (s.calculate_collision_event i j)) q1
  { s with collisions := push_opt q2 (s.calculate_container_collision i) }

/-- `Simulation::step` (simulate.rs lines 113-119): free-flight every ball by
`t * (1 - delta)` and advance `global_time` by `t`. -/
def step (s : Simulation) (t : ℚ) : Simulation :=
  { s with balls := s.balls.map (fun ball => ball.step (t * (1 - s.params.delta))),
           global_time := s.global_time + t }

/-- `Simulation::step_until` (simulate.rs lines 121-132).  The source tests
`!delta.is_sign_positive()` with `delta = t - self.global_time`; IEEE
subtraction of finite doubles yields an exact zero only as `+0.0` (positive
sign), so in the exact model the error branch is precisely `delta < 0`. -/
def step_until (s : Simulation) (t : ℚ) : Except DynamicsError Unit × Simulation :=
  let delta := t - s.global_time
  if delta < 0 then (.error .SimulationFailure, s)
  else (.ok (), s.step delta)

/-- `Simulation::collide_by_index` (simulate.rs lines 134-154): apply the
ball-ball kernel to balls `i` and `j`.  The `assert_ne!(i, j)` panic is
modelled as `none`; on a kernel error the balls are unchanged (the kernel
returns before mutating). -/
def collide_by_index (s : Simulation) (i j : ℕ) :
    Option (Except DynamicsError Unit × Simulation) :=
  if i = j then none
  else
    match (s.ball_at i).collide (s.ball_at j) with
    | (.error e, _, _) => some (.error e, s)
    | (.ok _, ball_i, ball_j) =>
      some (.ok (), { s with balls := (s.balls.set i ball_i).set j ball_j })

/-- `Simulation::collide_members` (simulate.rs lines 156-169). -/
def collide_members (s : Simulation) (i : ℕ) (j : CollisionPartner) :
    Option (Except DynamicsError Unit × Simulation) :=
  match j with
  | .Ball j => s.collide_by_index i j
  | .Container =>
    match (s.ball_at i).container_collide s.container with
    | (.error e, _) => some (.error e, s)
    | (.ok _, p) => some (.ok (), { s with balls := s.balls.set i p })

/-- `Simulation::next_collision` (simulate.rs lines 171-189): pop the next
event; return it when each participant's current velocity (origin for the
container) equals the recorded witness, else discard it. -/
def next_collision (s : Simulation) : Option CollisionEvent × Simulation :=
  match queue_pop s.collisions with
  | none => (none, s)
  | some (collision_info, rest) =>
    let s' := { s with collisions := rest }
    let p := s'.ball_at collision_info.i
    let q_vel := match collision_info.j with
      | .Ball j => (s'.ball_at j).vel
      | .Container => FloatVec.origin
    let curr_vels := (p.vel, q_vel)
    if curr_vels = collision_info.old_vels then
      (some (CollisionEvent.new collision_info.i collision_info.j collision_info.t
        collision_info.old_vels), s')
    else
      (none, s')

/-- One pass of `while collision_event.is_none()` per unit of fuel
(`next_collision_or_err`, simulate.rs lines 191-198). -/
def next_collision_loop : ℕ → Simulation → Option (CollisionEvent × Simulation)
  | 0, _ => none
  | fuel + 1, s =>
    match s.next_collision with
    | (some collision_event, s') => some (collision_event, s')
    | (none, s') => next_collision_loop fuel s'

/-- `Simulation::next_collision_or_err` (simulate.rs lines 191-198).  Each
pass of the Rust `while` loop pops one element of the queue (or none, once
the queue is empty — and nothing inside the loop refills it), so after
`queue length` passes the loop has either produced an event or will spin
forever.  `none` therefore marks the infinite loop on queue underflow; note
the `ok_or(SimulationFailure)` after the loop is unreachable, since the loop
exits only once `collision_event.is_some()`. -/
def next_collision_or_err (s : Simulation) : Option (CollisionEvent × Simulation) :=
  next_collision_loop s.collisions.length s

/-- `Simulation::step_through_collision` (simulate.rs lines 200-213).
`none` propagates the two non-returning outcomes (queue-underflow spin in
`next_collision_or_err`, `assert_ne!` panic in `collide_by_index`); `some`
carries the Rust `Result` together with the final state. -/
def step_through_collision (s : Simulation) :
    Option (Except DynamicsError Unit × Simulation) :=
  match s.next_collision_or_err with
  | none => none
  | some (next, s1) =>
    match s1.step_until next.t with
    | (.error e, s2) => some (.error e, s2)
    | (.ok _, s2) =>
      match s2.collide_members next.i next.j with
      | none => none
      | some (.error e, s3) => some (.error e, s3)
      | some (.ok _, s3) =>
        let s4 := s3.push_collisions next.i
        match next.j with
        | .Ball j => some (.ok (), s4.push_collisions j)
        | .Container => some (.ok (), s4)

/-- `Simulation::run_collisions` (simulate.rs lines 233-240): iterate
`step_through_collision` `n` times, stopping at the first error. -/
def run_collisions : Simulation → ℕ → Option (Except DynamicsError Unit × Simulation)
  | s, 0 => some (.ok (), s)
  | s, n + 1 =>
    match s.step_through_collision with
    | none => none
    | some (.error e, s') => some (.error e, s')
    | some (.ok _, s') => run_collisions s' n

end Simulation

/-- The pair the freshness test of `next_collision` compares against the
witness: the current velocity of the event's first ball and of its partner
(the origin for the container). -/
def Simulation.participant_vels (s : Simulation) (e : CollisionEvent) : FloatVec × FloatVec :=
  ((s.ball_at e.i).vel,
   match e.j with
   | .Ball j => (s.ball_at j).vel
   | .Container => FloatVec.origin)

/-- The batch of ball-pair events one call of `generate_collision_queue`
pushes (in push order, so reversed onto the front of the queue list). -/
def Simulation.pair_events (s : Simulation) : List CollisionEvent :=
  ((Simulation.index_pairs s.balls.length).filterMap
    fun ij => s.calculate_collision_event ij.1 ij.2).reverse

/-- The batch of ball-container events one call of
`generate_container_collisions` pushes. -/
def Simulation.container_events (s : Simulation) : List CollisionEvent :=
  ((List.range s.balls.length).filterMap fun i => s.calculate_container_collision i).reverse

/-- The contact quadratic of spec §4.1: `A·t² + 2·B·t + C`. -/
def contact_quadratic (A B C t : ℚ) : ℚ := A * t ^ 2 + 2 * B * t + C

/-- The common body of the two `time_to_collision` implementations
(collide.rs), abstracted over the relative position `dr`, relative velocity
`dv` and the signed radius term `rho` (`r₁ + r₂` for ball-ball, `r − R` for
ball-container); each implementation is definitionally an instance of it. -/
def ttc_core (dr dv : FloatVec) (rho : ℚ) : Option ℚ :=
  if dv.dot dv * rho * rho < dr.cross_squared dv then none
  else
    smallest_positive
      (-(dv.dot dr + fsqrt (dv.dot dv * rho * rho - dr.cross_squared dv)) / dv.dot dv)
      (-(dv.dot dr - fsqrt (dv.dot dv * rho * rho - dr.cross_squared dv)) / dv.dot dv)

/-- Invariant of the event loop: every queued event is scheduled no earlier
than the current global time. -/
def QueueInv (s : Simulation) : Prop := ∀ e ∈ s.collisions, s.global_time ≤ e.t

/-- Concrete data for witnesses: the spec §8 "container specular" ball. -/
def sample_ball : Ball := ⟨⟨0, 0⟩, ⟨1, 0⟩, 1/10⟩

/-- Concrete simulator holding `sample_ball`, initialised. -/
def sample_sim : Simulation := ((Simulation.new 1).add_balls [sample_ball]).initialise

/-- The single event `sample_sim`'s queue holds. -/
def sample_event : CollisionEvent := ⟨0, .Container, 9/10, (⟨1, 0⟩, ⟨0, 0⟩)⟩

/-- The reachable simulator states: any sequence of `new`, `add_balls`,
`initialise`, `step_through_collision` and `run_collisions`. -/
inductive Reachable : Simulation → Prop
  | new (radius : ℚ) : Reachable (Simulation.new radius)
  | add_balls {s : Simulation} (balls : List Ball) :
      Reachable s → Reachable (s.add_balls balls)
  | initialise {s : Simulation} : Reachable s → Reachable s.initialise
  | step_through {s : Simulation} {r : Except DynamicsError Unit} {s' : Simulation} :
      Reachable s → s.step_through_collision = some (r, s') → Reachable s'
  | run {s : Simulation} {n : ℕ} {r : Except DynamicsError Unit} {s' : Simulation} :
      Reachable s → s.run_collisions n = some (r, s') → Reachable s'

/-! Component-level rewriting lemmas for the vector operations. -/

@[simp] theorem FloatVec.add_def (v w : FloatVec) : v + w = ⟨v.x + w.x, v.y + w.y⟩ := rfl

@[simp] theorem FloatVec.sub_def (v w : FloatVec) : v - w = ⟨v.x - w.x, v.y - w.y⟩ := rfl

@[simp] theorem FloatVec.smul_def (v : FloatVec) (c : ℚ) : v * c = ⟨v.x * c, v.y * c⟩ := rfl

@[simp] theorem FloatVec.smul_left_def (c : ℚ) (v : FloatVec) : c * v = ⟨v.x * c, v.y * c⟩ := rfl

@[simp] theorem FloatVec.div_def (v : FloatVec) (c : ℚ) : v / c = ⟨v.x / c, v.y / c⟩ := rfl

@[simp] theorem FloatVec.neg_def (v : FloatVec) : -v = ⟨-v.x, -v.y⟩ := rfl

theorem FloatVec.dot_def (v w : FloatVec) : v.dot w = v.x * w.x + v.y * w.y := rfl

/-- C5. `Simulation::step(t)` advances each ball's position by
`vel · ((1 − delta) · t)` and `global_time` by exactly `t`, leaving every
ball's velocity and radius, the container, the parameters and the collision
queue unchanged; the configured safety factor of a new simulator is
`delta = 1e-6`. -/
theorem step_effect :
    (∀ (s : Simulation) (t : ℚ),
      s.step t =
        { s with
          global_time := s.global_time + t,
          balls := s.balls.map
            fun b => { b with pos := b.pos + b.vel * ((1 - s.params.delta) * t) } })
    ∧ ∀ radius : ℚ, (Simulation.new radius).params.delta = 1 / 1000000 := by
  constructor
  · intro s t
    simp only [Simulation.step, Ball.step, mul_comm t (1 - s.params.delta)]
  · intro radius
    rfl

/-- C6. `Simulation::step_until(t)` fails with the simulation-failure kind
exactly when `t < global_time`, leaving the state unchanged on the error
path, and otherwise behaves as `step (t − global_time)`. -/
theorem step_until_effect :
    ∀ (s : Simulation) (t : ℚ),
      s.step_until t =
        if t < s.global_time then (.error .SimulationFailure, s)
        else (.ok (), s.step (t - s.global_time)) := by
  intro s t
  simp only [Simulation.step_until, sub_neg]

/-- C4. On queue underflow the `while` loop of `next_collision_or_err` never
produces an event no matter how many passes it runs (the queue stays empty),
so the function never returns — in particular it never returns the
simulation-failure error the spec promises; `step_through_collision` and
`run_collisions` inherit the non-return (modelled by `none`). -/
theorem queue_underflow_spins :
    (∀ fuel : ℕ, Simulation.next_collision_loop fuel (Simulation.new 1) = none)
    ∧ (Simulation.new 1).step_through_collision = none
    ∧ (Simulation.new 1).run_collisions 1 = none := by
  have hloop : ∀ fuel : ℕ, Simulation.next_collision_loop fuel (Simulation.new 1) = none := by
    intro fuel
    induction fuel with
    | zero => rfl
    | succ n ih =>
      have hnext : (Simulation.new 1).next_collision = (none, Simulation.new 1) := rfl
      simp only [Simulation.next_collision_loop, hnext]
      exact ih
  exact ⟨hloop, rfl, rfl⟩


/-- Folding the conditional pushes of simulate.rs over an index list prepends
the reversed batch of produced events. -/
theorem foldl_push_opt_eq {α : Type} (f : α → Option CollisionEvent) :
    ∀ (l : List α) (q : List CollisionEvent),
      l.foldl (fun q a => Simulation.push_opt q (f a)) q = (l.filterMap f).reverse ++ q := by
  intro l
  induction l with
  | nil => intro q; rfl
  | cons a l ih =>
    intro q
    have hnone : ∀ q : List CollisionEvent, Simulation.push_opt q none = q := fun _ => rfl
    have hsome : ∀ (q : List CollisionEvent) (e : CollisionEvent),
        Simulation.push_opt q (some e) = e :: q := fun _ _ => rfl
    cases h : f a with
    | none =>
      simp only [List.foldl_cons, List.filterMap_cons, h, hnone]
      exact ih q
    | some e =>
      simp only [List.foldl_cons, List.filterMap_cons, h, hsome]
      rw [ih (e :: q)]
      simp [List.append_assoc]

/-- `generate_collision_queue` prepends the batch of ball-pair events. -/
theorem generate_collision_queue_eq (s : Simulation) :
    s.generate_collision_queue = { s with collisions := s.pair_events ++ s.collisions } := by
  simp only [Simulation.generate_collision_queue, Simulation.pair_events, foldl_push_opt_eq]

/-- `generate_container_collisions` prepends the batch of container events. -/
theorem generate_container_collisions_eq (s : Simulation) :
    s.generate_container_collisions =
      { s with collisions := s.container_events ++ s.collisions } := by
  simp only [Simulation.generate_container_collisions, Simulation.container_events,
    foldl_push_opt_eq]

/-- `initialise` prepends both batches and changes nothing else. -/
theorem initialise_eq (s : Simulation) :
    s.initialise =
      { s with collisions := s.container_events ++ (s.pair_events ++ s.collisions) } := by
  simp only [Simulation.initialise, generate_collision_queue_eq,
    generate_container_collisions_eq]
  rfl


/-- C8 amended: `initialise` is not idempotent.  Each call leaves
`global_time`, `balls` and the container unchanged and pushes the batches of
candidate events in front of the existing queue; since the batches depend
only on the unchanged fields, a second call pushes the same batch again, so
the queue then holds every scheduled event twice. -/
theorem initialise_second_call (s : Simulation) :
    s.initialise.initialise =
      { s.initialise with
        collisions := s.container_events ++ (s.pair_events ++ s.initialise.collisions) }
    ∧ s.initialise.collisions = s.container_events ++ (s.pair_events ++ s.collisions)
    ∧ s.initialise.global_time = s.global_time
    ∧ s.initialise.balls = s.balls
    ∧ s.initialise.container = s.container := by
  have h1 : s.initialise.pair_events = s.pair_events := rfl
  have h2 : s.initialise.container_events = s.container_events := rfl
  refine ⟨?_, ?_, rfl, rfl, rfl⟩
  · rw [initialise_eq s.initialise, h1, h2]
  · rw [initialise_eq s]

/-- C1. An event popped from the queue by `next_collision` is returned
(processed) exactly when each participant's current velocity equals the
velocity recorded in its witness, a container partner's current velocity
being the origin; on any mismatch it is discarded (`none`), and in either
case the event has been removed from the queue. -/
theorem freshness_iff (s : Simulation) (e : CollisionEvent) (rest : List CollisionEvent)
    (hpop : queue_pop s.collisions = some (e, rest)) :
    ((s.next_collision).1 = some e ↔ s.participant_vels e = e.old_vels)
    ∧ ((s.next_collision).1 = none ↔ s.participant_vels e ≠ e.old_vels)
    ∧ (s.next_collision).2 = { s with collisions := rest } := by
  have heta : CollisionEvent.new e.i e.j e.t e.old_vels = e := rfl
  by_cases h : s.participant_vels e = e.old_vels <;>
    simp_all [Simulation.next_collision, hpop, Simulation.participant_vels,
      Simulation.ball_at, CollisionEvent.new]


/-- C7. Both collision kernels report the `IntersectingParticles`
arithmetic-failure sentinel exactly when the two participants' centres
coincide to within 1 ULP (the container's centre being the origin); in that
error case the participants are returned unchanged (the kernel returns
before any velocity update), and otherwise the kernel succeeds. -/
theorem collide_degenerate_iff :
    ∀ (a b : Ball) (c : Container),
      ((a.collide b).1 = .error .IntersectingParticles ↔ a.pos.approx_eq b.pos 1)
      ∧ (a.pos.approx_eq b.pos 1 → (a.collide b).2 = (a, b))
      ∧ (¬ a.pos.approx_eq b.pos 1 → (a.collide b).1 = .ok ())
      ∧ ((a.container_collide c).1 = .error .IntersectingParticles ↔
          a.pos.approx_eq FloatVec.origin 1)
      ∧ (a.pos.approx_eq FloatVec.origin 1 → (a.container_collide c).2 = a)
      ∧ (¬ a.pos.approx_eq FloatVec.origin 1 → (a.container_collide c).1 = .ok ()) := by
  intro a b c
  by_cases h : a.pos.approx_eq b.pos 1 <;>
    by_cases h' : a.pos.approx_eq FloatVec.origin 1 <;>
      simp [Ball.collide, Ball.container_collide, normalised_difference, h, h']


/-- C10. Ball-ball `time_to_collision` is symmetric in its two arguments:
both orders give identical results, so the events `initialise` schedules
(lower index first) agree with those recomputed by per-ball rescheduling,
where the mutated ball is always the first participant. -/
theorem time_to_collision_comm : ∀ a b : Ball, a.time_to_collision b = b.time_to_collision a := by
  intro a b
  have hdv : (b.vel - a.vel).dot (b.vel - a.vel) = (a.vel - b.vel).dot (a.vel - b.vel) := by
    simp [FloatVec.dot_def]; ring
  have hr : b.r + a.r = a.r + b.r := add_comm _ _
  have hrhs : (b.pos - a.pos).cross_squared (b.vel - a.vel)
      = (a.pos - b.pos).cross_squared (a.vel - b.vel) := by
    simp [FloatVec.cross_squared]; ring
  have hB : (b.vel - a.vel).dot (b.pos - a.pos) = (a.vel - b.vel).dot (a.pos - b.pos) := by
    simp [FloatVec.dot_def]; ring
  simp only [Ball.time_to_collision]
  rw [hdv, hr, hrhs, hB]

theorem FloatVec.dot_comm (v w : FloatVec) : v.dot w = w.dot v := by
  simp only [FloatVec.dot_def]; ring

theorem FloatVec.dot_self_nonneg (v : FloatVec) : 0 ≤ v.dot v := by
  simp only [FloatVec.dot_def]
  nlinarith [mul_self_nonneg v.x, mul_self_nonneg v.y]

/-- The sign-convenient discriminant `lhs − rhs` of collide.rs equals the
textbook discriminant `B² − A·C` of the contact quadratic (a Lagrange
identity in two dimensions). -/
theorem disc_eq (dr dv : FloatVec) (rho : ℚ) :
    dv.dot dv * rho * rho - dr.cross_squared dv =
      (dr.dot dv) ^ 2 - dv.dot dv * (dr.dot dr - rho ^ 2) := by
  simp only [FloatVec.dot_def, FloatVec.cross_squared]; ring

/-- Factorisation of the contact quadratic through the roots produced by the
quadratic formula, given an exact square root `s` of the discriminant. -/
theorem quadratic_factor (A B C s t : ℚ) (hA : A ≠ 0) (hss : s * s = B ^ 2 - A * C) :
    contact_quadratic A B C t = A * (t - -(B + s) / A) * (t - -(B - s) / A) := by
  unfold contact_quadratic
  field_simp
  ring_nf
  linear_combination hss

/-- Root-selection behaviour of `smallest_positive`: it returns the least
strictly-positive element of `{a, b}` and `none` when there is none. -/
theorem smallest_positive_spec (a b : ℚ) :
    (∀ x, smallest_positive a b = some x ↔
      0 < x ∧ (x = a ∨ x = b) ∧ ∀ y, 0 < y → y = a ∨ y = b → x ≤ y)
    ∧ (smallest_positive a b = none ↔ ¬ 0 < a ∧ ¬ 0 < b) := by
  have hminc := min_choice a b
  have hmaxc := max_choice a b
  have hle1 := min_le_left a b
  have hle2 := min_le_right a b
  have hge1 := le_max_left a b
  have hge2 := le_max_right a b
  unfold smallest_positive
  constructor
  · intro x
    constructor
    · intro hx
      by_cases hmin : 0 < min a b
      · rw [if_pos hmin] at hx
        injection hx with h
        subst h
        refine ⟨hmin, hminc, ?_⟩
        intro y _ hmem
        rcases hmem with h | h
        · rw [h]; exact hle1
        · rw [h]; exact hle2
      · rw [if_neg hmin] at hx
        by_cases hmax : 0 < max a b
        · rw [if_pos hmax] at hx
          injection hx with h
          subst h
          push_neg at hmin
          refine ⟨hmax, hmaxc, ?_⟩
          intro y hy hmem
          rcases hminc with hm | hm <;> rcases hmaxc with hM | hM <;>
            rcases hmem with h | h <;> linarith
        · rw [if_neg hmax] at hx
          exact absurd hx (by simp)
    · rintro ⟨hx, hmem, hmin⟩
      by_cases hminpos : 0 < min a b
      · rw [if_pos hminpos]
        have h1 : x ≤ min a b := hmin (min a b) hminpos hminc
        have h2 : min a b ≤ x := by
          rcases hmem with h | h
          · rw [h]; exact hle1
          · rw [h]; exact hle2
        rw [le_antisymm h2 h1]
      · by_cases hmaxpos : 0 < max a b
        · rw [if_neg hminpos, if_pos hmaxpos]
          have h1 : x ≤ max a b := hmin (max a b) hmaxpos hmaxc
          have h2 : max a b ≤ x := by
            push_neg at hminpos
            rcases hminc with hm | hm <;> rcases hmaxc with hM | hM <;>
              rcases hmem with h | h <;> linarith
          rw [le_antisymm h2 h1]
        · exfalso
          rcases hmem with h | h
          · exact hmaxpos (lt_max_iff.mpr (Or.inl (h ▸ hx)))
          · exact hmaxpos (lt_max_iff.mpr (Or.inr (h ▸ hx)))
  · by_cases hminpos : 0 < min a b
    · rw [if_pos hminpos]
      rw [lt_min_iff] at hminpos
      simp [hminpos.1]
    · by_cases hmaxpos : 0 < max a b
      · rw [if_neg hminpos, if_pos hmaxpos]
        rw [lt_max_iff] at hmaxpos
        constructor
        · intro h
          exact absurd h (by simp)
        · rintro ⟨h1, h2⟩
          rcases hmaxpos with h | h
          · exact absurd h h1
          · exact absurd h h2
      · rw [if_neg hminpos, if_neg hmaxpos]
        push_neg at hmaxpos
        constructor
        · intro _
          constructor
          · exact not_lt.2 (le_trans hge1 hmaxpos)
          · exact not_lt.2 (le_trans hge2 hmaxpos)
        · intro _
          rfl

/-- Characterisation of the shared time-to-collision core: under an exact
square root of the (nonnegative) discriminant and a nonzero `A = dv·dv`, it
returns exactly the least strictly-positive root of the contact quadratic,
and `none` when no strictly-positive root exists. -/
theorem ttc_core_char (dr dv : FloatVec) (rho : ℚ)
    (hA : dv.dot dv ≠ 0)
    (hs : dr.cross_squared dv ≤ dv.dot dv * rho * rho →
      fsqrt (dv.dot dv * rho * rho - dr.cross_squared dv) *
        fsqrt (dv.dot dv * rho * rho - dr.cross_squared dv) =
        dv.dot dv * rho * rho - dr.cross_squared dv) :
    (∀ t, ttc_core dr dv rho = some t ↔
      0 < t ∧ contact_quadratic (dv.dot dv) (dr.dot dv) (dr.dot dr - rho ^ 2) t = 0 ∧
        ∀ u, 0 < u → contact_quadratic (dv.dot dv) (dr.dot dv) (dr.dot dr - rho ^ 2) u = 0 →
          t ≤ u)
    ∧ (ttc_core dr dv rho = none ↔
      ∀ u, 0 < u → contact_quadratic (dv.dot dv) (dr.dot dv) (dr.dot dr - rho ^ 2) u ≠ 0) := by
  have hA0 : 0 < dv.dot dv := lt_of_le_of_ne (FloatVec.dot_self_nonneg dv) (Ne.symm hA)
  unfold ttc_core
  by_cases hlt : dv.dot dv * rho * rho < dr.cross_squared dv
  · rw [if_pos hlt]
    have hnoroot : ∀ u : ℚ,
        contact_quadratic (dv.dot dv) (dr.dot dv) (dr.dot dr - rho ^ 2) u ≠ 0 := by
      intro u hu
      unfold contact_quadratic at hu
      have hid := disc_eq dr dv rho
      nlinarith [sq_nonneg (dv.dot dv * u + dr.dot dv)]
    constructor
    · intro t
      constructor
      · intro h
        exact absurd h (by simp)
      · rintro ⟨_, hq, _⟩
        exact absurd hq (hnoroot t)
    · constructor
      · intro _ u _
        exact hnoroot u
      · intro _
        rfl
  · rw [if_neg hlt]
    have hge : dr.cross_squared dv ≤ dv.dot dv * rho * rho := not_lt.1 hlt
    have hss : fsqrt (dv.dot dv * rho * rho - dr.cross_squared dv) *
        fsqrt (dv.dot dv * rho * rho - dr.cross_squared dv) =
        (dr.dot dv) ^ 2 - dv.dot dv * (dr.dot dr - rho ^ 2) :=
      (hs hge).trans (disc_eq dr dv rho)
    have hroot : ∀ u : ℚ,
        contact_quadratic (dv.dot dv) (dr.dot dv) (dr.dot dr - rho ^ 2) u = 0 ↔
          u = -(dv.dot dr + fsqrt (dv.dot dv * rho * rho - dr.cross_squared dv)) / dv.dot dv ∨
          u = -(dv.dot dr - fsqrt (dv.dot dv * rho * rho - dr.cross_squared dv)) / dv.dot dv := by
      intro u
      have hfac := quadratic_factor (dv.dot dv) (dr.dot dv) (dr.dot dr - rho ^ 2)
        (fsqrt (dv.dot dv * rho * rho - dr.cross_squared dv)) u hA hss
      rw [FloatVec.dot_comm dv dr]
      constructor
      · intro h
        rw [hfac] at h
        rcases mul_eq_zero.1 h with h1 | h1
        · rcases mul_eq_zero.1 h1 with h2 | h2
          · exact absurd h2 hA
          · exact Or.inl (sub_eq_zero.1 h2)
        · exact Or.inr (sub_eq_zero.1 h1)
      · intro h
        rw [hfac]
        rcases h with h | h
        · rw [h]; ring
        · rw [h]; ring
    constructor
    · intro t
      rw [(smallest_positive_spec _ _).1 t]
      constructor
      · rintro ⟨ht, hmem, hmin⟩
        refine ⟨ht, (hroot t).2 hmem, ?_⟩
        intro u hu hq
        exact hmin u hu ((hroot u).1 hq)
      · rintro ⟨ht, hq, hmin⟩
        refine ⟨ht, (hroot t).1 hq, ?_⟩
        intro y hy hmem
        exact hmin y hy ((hroot y).2 hmem)
    · rw [(smallest_positive_spec _ _).2]
      constructor
      · rintro ⟨h1, h2⟩ u hu hq
        rcases (hroot u).1 hq with h | h
        · rw [h] at hu
          exact h1 hu
        · rw [h] at hu
          exact h2 hu
      · intro h
        constructor
        · intro h1
          exact h _ h1 ((hroot _).2 (Or.inl rfl))
        · intro h2
          exact h _ h2 ((hroot _).2 (Or.inr rfl))

/-- Ball-ball `time_to_collision` is definitionally the shared core at
`dr = p₁ − p₂`, `dv = v₁ − v₂`, `rho = r₁ + r₂`. -/
theorem time_to_collision_eq_core (a b : Ball) :
    a.time_to_collision b = ttc_core (a.pos - b.pos) (a.vel - b.vel) (a.r + b.r) := rfl

/-- Ball-container `time_to_collision` is definitionally the shared core at
`dr = p`, `dv = v`, `rho = r − R`. -/
theorem time_to_container_collision_eq_core (a : Ball) (c : Container) :
    a.time_to_container_collision c = ttc_core a.pos a.vel (a.r - c.r) := rfl

/-- C3. For ball-ball (and ball-container) pairs, `time_to_collision` solves
the contact quadratic `A·t² + 2·B·t + C = 0` (`A = dv·dv`, `B = dr·dv`,
`C = dr·dr − (r₁+r₂)²`, resp. `C = dr·dr − (r−R)²`): when the discriminant is
negative (`lhs < rhs`) it returns no contact, and otherwise it returns the
smaller strictly-positive root — the one positive root if only one is
positive — and `none` when no strictly-positive root exists (a tie at zero
included).  Hypotheses: the relative velocity is nonzero (`A ≠ 0`; with
`A = 0` the quadratic has no roots to select), and the modelled square root
is exact on the (nonnegative) discriminant. -/
theorem time_to_collision_solves_quadratic (a b : Ball) (c : Container)
    (hA : (a.vel - b.vel).dot (a.vel - b.vel) ≠ 0)
    (hsq : (a.pos - b.pos).cross_squared (a.vel - b.vel) ≤
        (a.vel - b.vel).dot (a.vel - b.vel) * (a.r + b.r) * (a.r + b.r) →
      fsqrt ((a.vel - b.vel).dot (a.vel - b.vel) * (a.r + b.r) * (a.r + b.r) -
          (a.pos - b.pos).cross_squared (a.vel - b.vel)) *
        fsqrt ((a.vel - b.vel).dot (a.vel - b.vel) * (a.r + b.r) * (a.r + b.r) -
          (a.pos - b.pos).cross_squared (a.vel - b.vel)) =
        (a.vel - b.vel).dot (a.vel - b.vel) * (a.r + b.r) * (a.r + b.r) -
          (a.pos - b.pos).cross_squared (a.vel - b.vel))
    (hA' : a.vel.dot a.vel ≠ 0)
    (hsq' : a.pos.cross_squared a.vel ≤ a.vel.dot a.vel * (a.r - c.r) * (a.r - c.r) →
      fsqrt (a.vel.dot a.vel * (a.r - c.r) * (a.r - c.r) - a.pos.cross_squared a.vel) *
        fsqrt (a.vel.dot a.vel * (a.r - c.r) * (a.r - c.r) - a.pos.cross_squared a.vel) =
        a.vel.dot a.vel * (a.r - c.r) * (a.r - c.r) - a.pos.cross_squared a.vel) :
    ((a.vel - b.vel).dot (a.vel - b.vel) * (a.r + b.r) * (a.r + b.r) <
        (a.pos - b.pos).cross_squared (a.vel - b.vel) → a.time_to_collision b = none)
    ∧ (∀ t, a.time_to_collision b = some t ↔
        0 < t ∧
        contact_quadratic ((a.vel - b.vel).dot (a.vel - b.vel))
          ((a.pos - b.pos).dot (a.vel - b.vel))
          ((a.pos - b.pos).dot (a.pos - b.pos) - (a.r + b.r) ^ 2) t = 0 ∧
        ∀ u, 0 < u →
          contact_quadratic ((a.vel - b.vel).dot (a.vel - b.vel))
            ((a.pos - b.pos).dot (a.vel - b.vel))
            ((a.pos - b.pos).dot (a.pos - b.pos) - (a.r + b.r) ^ 2) u = 0 → t ≤ u)
    ∧ (a.time_to_collision b = none ↔
        ∀ u, 0 < u →
          contact_quadratic ((a.vel - b.vel).dot (a.vel - b.vel))
            ((a.pos - b.pos).dot (a.vel - b.vel))
            ((a.pos - b.pos).dot (a.pos - b.pos) - (a.r + b.r) ^ 2) u ≠ 0)
    ∧ (a.vel.dot a.vel * (a.r - c.r) * (a.r - c.r) < a.pos.cross_squared a.vel →
        a.time_to_container_collision c = none)
    ∧ (∀ t, a.time_to_container_collision c = some t ↔
        0 < t ∧
        contact_quadratic (a.vel.dot a.vel) (a.pos.dot a.vel)
          (a.pos.dot a.pos - (a.r - c.r) ^ 2) t = 0 ∧
        ∀ u, 0 < u →
          contact_quadratic (a.vel.dot a.vel) (a.pos.dot a.vel)
            (a.pos.dot a.pos - (a.r - c.r) ^ 2) u = 0 → t ≤ u)
    ∧ (a.time_to_container_collision c = none ↔
        ∀ u, 0 < u →
          contact_quadratic (a.vel.dot a.vel) (a.pos.dot a.vel)
            (a.pos.dot a.pos - (a.r - c.r) ^ 2) u ≠ 0) := by
  have hball := ttc_core_char (a.pos - b.pos) (a.vel - b.vel) (a.r + b.r) hA hsq
  have hcont := ttc_core_char a.pos a.vel (a.r - c.r) hA' hsq'
  refine ⟨?_, hball.1, hball.2, ?_, hcont.1, hcont.2⟩
  · intro hlt
    rw [time_to_collision_eq_core]
    unfold ttc_core
    rw [if_pos hlt]
  · intro hlt
    rw [time_to_container_collision_eq_core]
    unfold ttc_core
    rw [if_pos hlt]


/-- `queue_pop` returns `none` only on the empty queue. -/
theorem queue_pop_none : ∀ q : List CollisionEvent, queue_pop q = none → q = [] := by
  intro q h
  cases q with
  | nil => rfl
  | cons a l =>
    rw [queue_pop] at h
    cases hl : queue_pop l with
    | none =>
      rw [hl] at h
      exact absurd h (by simp)
    | some p =>
      obtain ⟨m, r⟩ := p
      rw [hl] at h
      dsimp only at h
      by_cases hle : a.t ≤ m.t
      · rw [if_pos hle] at h
        exact absurd h (by simp)
      · rw [if_neg hle] at h
        exact absurd h (by simp)

/-- `queue_pop` pops a member, keeps exactly the other members, and the
popped element is minimal in scheduled time. -/
theorem queue_pop_spec :
    ∀ (q : List CollisionEvent) (e : CollisionEvent) (rest : List CollisionEvent),
      queue_pop q = some (e, rest) →
        e ∈ q ∧ (∀ x ∈ rest, x ∈ q) ∧ (∀ x ∈ q, x = e ∨ x ∈ rest) ∧
          ∀ x ∈ rest, e.t ≤ x.t := by
  intro q
  induction q with
  | nil =>
    intro e rest h
    exact absurd h (by simp [queue_pop])
  | cons a l ih =>
    intro e rest h
    rw [queue_pop] at h
    cases hl : queue_pop l with
    | none =>
      rw [hl] at h
      injection h with h'
      injection h' with he hrest
      subst he
      subst hrest
      have hnil := queue_pop_none l hl
      subst hnil
      refine ⟨List.mem_cons_self a [], ?_, ?_, ?_⟩
      · intro x hx
        exact absurd hx (List.not_mem_nil x)
      · intro x hx
        rcases List.mem_cons.1 hx with h | h
        · exact Or.inl h
        · exact absurd h (List.not_mem_nil x)
      · intro x hx
        exact absurd hx (List.not_mem_nil x)
    | some p =>
      obtain ⟨m, rest'⟩ := p
      rw [hl] at h
      dsimp only at h
      obtain ⟨hm_mem, hsub, hcov, hmin⟩ := ih m rest' hl
      by_cases hle : a.t ≤ m.t
      · rw [if_pos hle] at h
        injection h with h'
        injection h' with he hrest
        subst he
        subst hrest
        refine ⟨List.mem_cons_self a l, ?_, ?_, ?_⟩
        · intro x hx
          exact List.mem_cons_of_mem a hx
        · intro x hx
          rcases List.mem_cons.1 hx with h | h
          · exact Or.inl h
          · exact Or.inr h
        · intro x hx
          rcases hcov x hx with h | h
          · rw [h]
            exact hle
          · exact le_trans hle (hmin x h)
      · rw [if_neg hle] at h
        injection h with h'
        injection h' with he hrest
        subst he
        subst hrest
        push_neg at hle
        refine ⟨List.mem_cons_of_mem a hm_mem, ?_, ?_, ?_⟩
        · intro x hx
          rcases List.mem_cons.1 hx with h | h
          · rw [h]
            exact List.mem_cons_self a l
          · exact List.mem_cons_of_mem a (hsub x h)
        · intro x hx
          rcases List.mem_cons.1 hx with h | h
          · exact Or.inr (by rw [h]; exact List.mem_cons_self a rest')
          · rcases hcov x h with h' | h'
            · exact Or.inl h'
            · exact Or.inr (List.mem_cons_of_mem a h')
        · intro x hx
          rcases List.mem_cons.1 hx with h | h
          · rw [h]
            exact le_of_lt hle
          · exact hmin x h

/-- `smallest_positive` only ever returns strictly positive values. -/
theorem smallest_positive_pos (a b x : ℚ) (h : smallest_positive a b = some x) : 0 < x := by
  unfold smallest_positive at h
  by_cases h1 : 0 < min a b
  · rw [if_pos h1] at h
    injection h with h'
    rw [← h']
    exact h1
  · rw [if_neg h1] at h
    by_cases h2 : 0 < max a b
    · rw [if_pos h2] at h
      injection h with h'
      rw [← h']
      exact h2
    · rw [if_neg h2] at h
      exact absurd h (by simp)

/-- The shared time-to-collision core only returns strictly positive times. -/
theorem ttc_core_pos (dr dv : FloatVec) (rho : ℚ) (t : ℚ)
    (h : ttc_core dr dv rho = some t) : 0 < t := by
  unfold ttc_core at h
  by_cases hc : dv.dot dv * rho * rho < dr.cross_squared dv
  · rw [if_pos hc] at h
    exact absurd h (by simp)
  · rw [if_neg hc] at h
    exact smallest_positive_pos _ _ _ h

/-- Match-form restatement of `calculate_collision_event` (definitional). -/
theorem calculate_collision_event_def (s : Simulation) (i j : ℕ) :
    s.calculate_collision_event i j =
      match (s.ball_at i).time_to_collision (s.ball_at j) with
      | none => none
      | some ttc =>
        some (CollisionEvent.new i (.Ball j) (s.global_time + ttc)
          ((s.ball_at i).vel, (s.ball_at j).vel)) := rfl

/-- Match-form restatement of `calculate_container_collision`
(definitional). -/
theorem calculate_container_collision_def (s : Simulation) (i : ℕ) :
    s.calculate_container_collision i =
      match (s.ball_at i).time_to_container_collision s.container with
      | none => none
      | some ttc =>
        some (CollisionEvent.new i .Container (s.global_time + ttc)
          ((s.ball_at i).vel, FloatVec.origin)) := rfl

/-- Any event produced by `calculate_collision_event` is scheduled strictly
after the current global time. -/
theorem calculate_collision_event_time (s : Simulation) (i j : ℕ) (e : CollisionEvent)
    (h : s.calculate_collision_event i j = some e) : s.global_time < e.t := by
  rw [calculate_collision_event_def] at h
  cases hc : (s.ball_at i).time_to_collision (s.ball_at j) with
  | none =>
    rw [hc] at h
    exact absurd h (by simp)
  | some ttc =>
    rw [hc] at h
    dsimp only at h
    injection h with h'
    rw [← h']
    have := ttc_core_pos _ _ _ _ ((time_to_collision_eq_core _ _).symm.trans hc)
    show s.global_time < s.global_time + ttc
    linarith

/-- Any event produced by `calculate_container_collision` is scheduled
strictly after the current global time. -/
theorem calculate_container_collision_time (s : Simulation) (i : ℕ) (e : CollisionEvent)
    (h : s.calculate_container_collision i = some e) : s.global_time < e.t := by
  rw [calculate_container_collision_def] at h
  cases hc : (s.ball_at i).time_to_container_collision s.container with
  | none =>
    rw [hc] at h
    exact absurd h (by simp)
  | some ttc =>
    rw [hc] at h
    dsimp only at h
    injection h with h'
    rw [← h']
    have := ttc_core_pos _ _ _ _ ((time_to_container_collision_eq_core _ _).symm.trans hc)
    show s.global_time < s.global_time + ttc
    linarith

/-- Membership in a fold of conditional pushes: an element is either newly
produced by the push function or was already in the queue. -/
theorem mem_foldl_push_opt {α : Type} (f : α → Option CollisionEvent) (l : List α)
    (q : List CollisionEvent) (x : CollisionEvent) :
    x ∈ l.foldl (fun q a => Simulation.push_opt q (f a)) q ↔
      (∃ a ∈ l, f a = some x) ∨ x ∈ q := by
  rw [foldl_push_opt_eq]
  simp

/-- Match-form restatement of `next_collision` (definitional): pop, test the
witness, return the event or discard it. -/
theorem next_collision_def (s : Simulation) :
    s.next_collision =
      match queue_pop s.collisions with
      | none => (none, s)
      | some (ci, rest) =>
        if s.participant_vels ci = ci.old_vels then
          (some ci, { s with collisions := rest })
        else (none, { s with collisions := rest }) := rfl

/-- Soundness of the pop-until-fresh loop: a returned event is scheduled no
earlier than the current global time, the loop only shrinks the queue (all
other fields unchanged), the invariant is preserved, and every event still
queued is scheduled no earlier than the returned one. -/
theorem next_collision_loop_spec :
    ∀ (fuel : ℕ) (s : Simulation) (e : CollisionEvent) (s' : Simulation),
      Simulation.next_collision_loop fuel s = some (e, s') → QueueInv s →
        s.global_time ≤ e.t ∧ s'.global_time = s.global_time ∧ s'.params = s.params
        ∧ s'.balls = s.balls ∧ s'.container = s.container ∧ QueueInv s'
        ∧ ∀ x ∈ s'.collisions, e.t ≤ x.t := by
  intro fuel
  induction fuel with
  | zero =>
    intro s e s' h _
    exact absurd h (by simp [Simulation.next_collision_loop])
  | succ n ih =>
    intro s e s' h hinv
    simp only [Simulation.next_collision_loop] at h
    rw [next_collision_def] at h
    cases hp : queue_pop s.collisions with
    | none =>
      rw [hp] at h
      dsimp only at h
      exact ih s e s' h hinv
    | some p =>
      obtain ⟨ci, rest⟩ := p
      rw [hp] at h
      dsimp only at h
      obtain ⟨hmem, hsub, _, hmin⟩ := queue_pop_spec s.collisions ci rest hp
      by_cases hfresh : s.participant_vels ci = ci.old_vels
      · rw [if_pos hfresh] at h
        dsimp only at h
        injection h with h1
        injection h1 with he hs'
        subst he
        subst hs'
        refine ⟨hinv ci hmem, rfl, rfl, rfl, rfl, ?_, ?_⟩
        · intro x hx
          exact hinv x (hsub x hx)
        · intro x hx
          exact hmin x hx
      · rw [if_neg hfresh] at h
        dsimp only at h
        have hinv1 : QueueInv { s with collisions := rest } := by
          intro x hx
          exact hinv x (hsub x hx)
        obtain ⟨h1, h2, h3, h4, h5, h6, h7⟩ := ih _ e s' h hinv1
        exact ⟨h1, h2, h3, h4, h5, h6, h7⟩

/-- Match-form restatement of the container branch of `collide_members`
(definitional). -/
theorem collide_members_container_def (s : Simulation) (i : ℕ) :
    s.collide_members i .Container =
      match (s.ball_at i).container_collide s.container with
      | (.error e, _) => some (.error e, s)
      | (.ok _, p) => some (.ok (), { s with balls := s.balls.set i p }) := rfl

/-- Match-form restatement of the ball branch of `collide_members`
(definitional). -/
theorem collide_members_ball_def (s : Simulation) (i j : ℕ) :
    s.collide_members i (.Ball j) =
      (if i = j then none
      else
        match (s.ball_at i).collide (s.ball_at j) with
        | (.error e, _, _) => some (.error e, s)
        | (.ok _, ball_i, ball_j) =>
          some (.ok (), { s with balls := (s.balls.set i ball_i).set j ball_j })) := rfl

/-- `collide_members` touches only the balls: global time, queue, parameters
and container are unchanged whatever the outcome. -/
theorem collide_members_frame (s : Simulation) (i : ℕ) (j : CollisionPartner)
    (r : Except DynamicsError Unit) (s' : Simulation)
    (h : s.collide_members i j = some (r, s')) :
    s'.global_time = s.global_time ∧ s'.collisions = s.collisions
    ∧ s'.params = s.params ∧ s'.container = s.container := by
  cases j with
  | Ball jj =>
    rw [collide_members_ball_def] at h
    by_cases hij : i = jj
    · rw [if_pos hij] at h
      exact absurd h (by simp)
    · rw [if_neg hij] at h
      rcases hc : (s.ball_at i).collide (s.ball_at jj) with ⟨r2, bi, bj⟩
      rw [hc] at h
      cases r2 with
      | error e =>
        dsimp only at h
        injection h with h1
        injection h1 with hr hs
        subst hs
        exact ⟨rfl, rfl, rfl, rfl⟩
      | ok u =>
        dsimp only at h
        injection h with h1
        injection h1 with hr hs
        subst hs
        exact ⟨rfl, rfl, rfl, rfl⟩
  | Container =>
    rw [collide_members_container_def] at h
    rcases hc : (s.ball_at i).container_collide s.container with ⟨r2, p⟩
    rw [hc] at h
    cases r2 with
    | error e =>
      dsimp only at h
      injection h with h1
      injection h1 with hr hs
      subst hs
      exact ⟨rfl, rfl, rfl, rfl⟩
    | ok u =>
      dsimp only at h
      injection h with h1
      injection h1 with hr hs
      subst hs
      exact ⟨rfl, rfl, rfl, rfl⟩

/-- Every event in the queue after `push_collisions` is either an old member
or newly scheduled strictly after the current global time. -/
theorem push_collisions_mem (s : Simulation) (i : ℕ) :
    ∀ x ∈ (s.push_collisions i).collisions, x ∈ s.collisions ∨ s.global_time < x.t := by
  intro x hx
  have hx' : x ∈ Simulation.push_opt
      ((List.range' (i + 1) (s.balls.length - (i + 1))).foldl
        (fun q j => Simulation.push_opt q (s.calculate_collision_event i j))
        ((List.range i).foldl
          (fun q j => Simulation.push_opt q (s.calculate_collision_event i j)) s.collisions))
      (s.calculate_container_collision i) := hx
  have hq2 : x ∈ (List.range' (i + 1) (s.balls.length - (i + 1))).foldl
      (fun q j => Simulation.push_opt q (s.calculate_collision_event i j))
      ((List.range i).foldl
        (fun q j => Simulation.push_opt q (s.calculate_collision_event i j)) s.collisions) →
      x ∈ s.collisions ∨ s.global_time < x.t := by
    intro h2
    rcases (mem_foldl_push_opt _ _ _ x).1 h2 with ⟨j, _, hcalc⟩ | h3
    · exact Or.inr (calculate_collision_event_time s i j x hcalc)
    · rcases (mem_foldl_push_opt _ _ _ x).1 h3 with ⟨j, _, hcalc⟩ | h4
      · exact Or.inr (calculate_collision_event_time s i j x hcalc)
      · exact Or.inl h4
  cases hc : s.calculate_container_collision i with
  | none =>
    rw [hc] at hx'
    rw [show ∀ q : List CollisionEvent, Simulation.push_opt q none = q from fun _ => rfl] at hx'
    exact hq2 hx'
  | some ev =>
    rw [hc] at hx'
    rw [show ∀ q : List CollisionEvent, Simulation.push_opt q (some ev) = ev :: q
      from fun _ => rfl] at hx'
    rcases List.mem_cons.1 hx' with h | h
    · right
      rw [h]
      exact calculate_container_collision_time s i ev hc
    · exact hq2 h

/-- `push_collisions` preserves the queue invariant (it pushes only events
scheduled strictly after the unchanged global time). -/
theorem push_collisions_inv (s : Simulation) (i : ℕ) (h : QueueInv s) :
    QueueInv (s.push_collisions i) := by
  intro x hx
  have hgt : (s.push_collisions i).global_time = s.global_time := rfl
  rw [hgt]
  rcases push_collisions_mem s i x hx with hold | hnew
  · exact h x hold
  · exact le_of_lt hnew

/-- Match-form restatement of `step_until` (definitional). -/
theorem step_until_def (s : Simulation) (t : ℚ) :
    s.step_until t =
      if t - s.global_time < 0 then (.error .SimulationFailure, s)
      else (.ok (), s.step (t - s.global_time)) := rfl

/-- Match-form restatement of `step_through_collision` (definitional). -/
theorem step_through_collision_def (s : Simulation) :
    s.step_through_collision =
      match s.next_collision_or_err with
      | none => none
      | some (next, s1) =>
        match s1.step_until next.t with
        | (.error e, s2) => some (.error e, s2)
        | (.ok _, s2) =>
          match s2.collide_members next.i next.j with
          | none => none
          | some (.error e, s3) => some (.error e, s3)
          | some (.ok _, s3) =>
            match next.j with
            | .Ball j => some (.ok (), (s3.push_collisions next.i).push_collisions j)
            | .Container => some (.ok (), s3.push_collisions next.i) := rfl

/-- One applied (or error-reporting) pass of the event loop never decreases
the global time and preserves the queue invariant. -/
theorem step_through_collision_spec (s : Simulation) (hinv : QueueInv s) :
    ∀ (r : Except DynamicsError Unit) (s' : Simulation),
      s.step_through_collision = some (r, s') →
        s.global_time ≤ s'.global_time ∧ QueueInv s' := by
  intro r s' h
  rw [step_through_collision_def] at h
  cases hne : s.next_collision_or_err with
  | none =>
    rw [hne] at h
    exact absurd h (by simp)
  | some p =>
    obtain ⟨ev, s1⟩ := p
    rw [hne] at h
    dsimp only at h
    obtain ⟨hte, hgt1, _, _, _, _, hmin1⟩ :=
      next_collision_loop_spec s.collisions.length s ev s1 hne hinv
    have hcond : ¬ (ev.t - s1.global_time < 0) := by
      rw [hgt1]
      linarith
    rw [step_until_def, if_neg hcond] at h
    dsimp only at h
    have hgt2 : (s1.step (ev.t - s1.global_time)).global_time = ev.t := by
      show s1.global_time + (ev.t - s1.global_time) = ev.t
      ring
    have hinv2 : QueueInv (s1.step (ev.t - s1.global_time)) := by
      intro x hx
      have hx1 : x ∈ s1.collisions := hx
      rw [hgt2]
      exact hmin1 x hx1
    cases hcm : (s1.step (ev.t - s1.global_time)).collide_members ev.i ev.j with
    | none =>
      rw [hcm] at h
      exact absurd h (by simp)
    | some p2 =>
      obtain ⟨r2, s3⟩ := p2
      rw [hcm] at h
      obtain ⟨hgt3, hcol3, _, _⟩ := collide_members_frame _ ev.i ev.j r2 s3 hcm
      have hgt3' : s3.global_time = ev.t := by rw [hgt3, hgt2]
      have hinv3 : QueueInv s3 := by
        intro x hx
        rw [hcol3] at hx
        rw [hgt3]
        exact hinv2 x hx
      cases r2 with
      | error e =>
        dsimp only at h
        injection h with h1
        injection h1 with hr hs
        subst hs
        refine ⟨?_, hinv3⟩
        rw [hgt3']
        exact hte
      | ok u =>
        dsimp only at h
        cases hj : ev.j with
        | Ball jj =>
          rw [hj] at h
          dsimp only at h
          injection h with h1
          injection h1 with hr hs
          subst hs
          refine ⟨?_, push_collisions_inv _ _ (push_collisions_inv _ _ hinv3)⟩
          have e1 : ((s3.push_collisions ev.i).push_collisions jj).global_time =
            s3.global_time := rfl
          rw [e1, hgt3']
          exact hte
        | Container =>
          rw [hj] at h
          dsimp only at h
          injection h with h1
          injection h1 with hr hs
          subst hs
          refine ⟨?_, push_collisions_inv _ _ hinv3⟩
          have e1 : (s3.push_collisions ev.i).global_time = s3.global_time := rfl
          rw [e1, hgt3']
          exact hte

/-- `run_collisions` never decreases the global time and preserves the queue
invariant. -/
theorem run_collisions_spec :
    ∀ (n : ℕ) (s : Simulation), QueueInv s →
      ∀ (r : Except DynamicsError Unit) (s' : Simulation),
        s.run_collisions n = some (r, s') →
          s.global_time ≤ s'.global_time ∧ QueueInv s' := by
  intro n
  induction n with
  | zero =>
    intro s hinv r s' h
    rw [show s.run_collisions 0 = some (.ok (), s) from rfl] at h
    injection h with h1
    injection h1 with hr hs
    subst hs
    exact ⟨le_refl _, hinv⟩
  | succ n ih =>
    intro s hinv r s' h
    rw [show s.run_collisions (n + 1) =
        (match s.step_through_collision with
         | none => none
         | some (.error e, s1) => some (.error e, s1)
         | some (.ok _, s1) => s1.run_collisions n) from rfl] at h
    cases hst : s.step_through_collision with
    | none =>
      rw [hst] at h
      exact absurd h (by simp)
    | some p =>
      obtain ⟨r1, s1⟩ := p
      rw [hst] at h
      obtain ⟨hg1, hinv1⟩ := step_through_collision_spec s hinv r1 s1 hst
      cases r1 with
      | error e =>
        dsimp only at h
        injection h with h1
        injection h1 with hr hs
        subst hs
        exact ⟨hg1, hinv1⟩
      | ok u =>
        dsimp only at h
        obtain ⟨hg2, hinv2⟩ := ih s1 hinv1 r s' h
        exact ⟨le_trans hg1 hg2, hinv2⟩

/-- `add_balls` leaves the queue and global time unchanged. -/
theorem add_balls_inv (s : Simulation) (balls : List Ball) (h : QueueInv s) :
    QueueInv (s.add_balls balls) := fun x hx => h x hx

/-- `initialise` preserves the queue invariant: every pushed candidate event
is scheduled strictly after the unchanged global time. -/
theorem initialise_inv (s : Simulation) (h : QueueInv s) : QueueInv s.initialise := by
  intro x hx
  have hx' : x ∈ s.container_events ++ (s.pair_events ++ s.collisions) := by
    rw [initialise_eq] at hx
    exact hx
  have hgt : s.initialise.global_time = s.global_time := rfl
  rw [hgt]
  rcases List.mem_append.1 hx' with hce | h2
  · have hm : x ∈ (List.range s.balls.length).filterMap
        (fun i => s.calculate_container_collision i) := List.mem_reverse.1 hce
    obtain ⟨i, _, hcalc⟩ := List.mem_filterMap.1 hm
    exact le_of_lt (calculate_container_collision_time s i x hcalc)
  · rcases List.mem_append.1 h2 with hpe | hold
    · have hm : x ∈ (Simulation.index_pairs s.balls.length).filterMap
          (fun ij => s.calculate_collision_event ij.1 ij.2) := List.mem_reverse.1 hpe
      obtain ⟨ij, _, hcalc⟩ := List.mem_filterMap.1 hm
      exact le_of_lt (calculate_collision_event_time s ij.1 ij.2 x hcalc)
    · exact h x hold

/-- Every reachable state satisfies the queue invariant: queued events are
never scheduled before the current global time. -/
theorem reachable_inv : ∀ s : Simulation, Reachable s → QueueInv s := by
  intro s h
  induction h with
  | new radius =>
    intro x hx
    exact absurd hx (List.not_mem_nil x)
  | add_balls balls _ ih => exact add_balls_inv _ balls ih
  | initialise _ ih => exact initialise_inv _ ih
  | step_through _ hstep ih => exact (step_through_collision_spec _ ih _ _ hstep).2
  | run _ hrun ih => exact (run_collisions_spec _ _ ih _ _ hrun).2

/-- C2. Over every reachable state (any sequence of `new`, `add_balls`,
`initialise`, `step_through_collision`, `run_collisions`): an event that is
popped and passes the freshness test is scheduled at `t ≥ global_time`, and
consequently `global_time` is non-decreasing across every pass of
`step_through_collision` (applied or error-reporting). -/
theorem monotone_time (s : Simulation) (h : Reachable s) :
    (∀ (e : CollisionEvent) (s1 : Simulation),
      s.next_collision_or_err = some (e, s1) → s.global_time ≤ e.t)
    ∧ ∀ (r : Except DynamicsError Unit) (s' : Simulation),
        s.step_through_collision = some (r, s') → s.global_time ≤ s'.global_time := by
  have hinv := reachable_inv s h
  constructor
  · intro e s1 hl
    exact (next_collision_loop_spec s.collisions.length s e s1 hl hinv).1
  · intro r s' hst
    exact (step_through_collision_spec s hinv r s' hst).1

/-- Witness for C2 at a concrete reachable state (`sample_sim` is reached by
`new`, `add_balls`, `initialise`). -/
theorem monotone_time_witness :
    Reachable sample_sim
    ∧ ((∀ (e : CollisionEvent) (s1 : Simulation),
          sample_sim.next_collision_or_err = some (e, s1) → sample_sim.global_time ≤ e.t)
       ∧ ∀ (r : Except DynamicsError Unit) (s' : Simulation),
           sample_sim.step_through_collision = some (r, s') →
             sample_sim.global_time ≤ s'.global_time) :=
  have hr : Reachable sample_sim :=
    Reachable.initialise (Reachable.add_balls [sample_ball] (Reachable.new 1))
  ⟨hr, monotone_time sample_sim hr⟩

section ConcreteEvaluations

/-
The concrete (witness / counterexample) theorems below evaluate the embedded
program on explicit inputs by kernel computation; the arithmetic on `ℚ` is
irreducible by default in this toolchain, so it is re-opened for reduction
here, after all symbolic proofs.
-/

attribute [local semireducible] Rat.add Rat.mul Rat.sub Rat.inv

/-- C9. For a container of radius 1 and a single ball of radius 1/10 at the
origin with velocity (1, 0): the ball-container `time_to_collision` is 9/10,
and running the event loop through that collision applies the container
kernel, leaving the ball with velocity (−1, 0) at global time 9/10. -/
theorem container_specular :
    Ball.time_to_container_collision ⟨⟨0, 0⟩, ⟨1, 0⟩, 1/10⟩ (Container.new 1) = some (9/10)
    ∧ (sample_sim.step_through_collision.map
        fun r => (r.1, (r.2.ball_at 0).vel, r.2.global_time)) =
      some (.ok (), ⟨-1, 0⟩, 9/10) := by
  constructor
  · decide
  · decide

/-- C8 counterexample: for a one-ball simulator, a second `initialise` does
not leave the state of a single `initialise` unchanged (the container event
is pushed a second time). -/
theorem initialise_not_idempotent : sample_sim.initialise ≠ sample_sim := by decide

/-- Witness for C1 at a concrete state: `sample_sim` holds exactly
`sample_event`, whose witness matches the live velocities, and
`next_collision` indeed returns it. -/
theorem freshness_iff_witness :
    queue_pop sample_sim.collisions = some (sample_event, [])
    ∧ ((sample_sim.next_collision).1 = some sample_event ↔
        sample_sim.participant_vels sample_event = sample_event.old_vels) :=
  ⟨by decide, (freshness_iff sample_sim sample_event [] (by decide)).1⟩

/-- Witness for C7: two concrete balls sharing the centre `(0,0)`; the
kernel errors and both balls come back unchanged. -/
theorem collide_degenerate_witness :
    FloatVec.approx_eq (⟨⟨0, 0⟩, ⟨1, 0⟩, 1/10⟩ : Ball).pos
      (⟨⟨0, 0⟩, ⟨-1, 0⟩, 2/10⟩ : Ball).pos 1
    ∧ (Ball.collide ⟨⟨0, 0⟩, ⟨1, 0⟩, 1/10⟩ ⟨⟨0, 0⟩, ⟨-1, 0⟩, 2/10⟩).2 =
        (⟨⟨0, 0⟩, ⟨1, 0⟩, 1/10⟩, ⟨⟨0, 0⟩, ⟨-1, 0⟩, 2/10⟩) :=
  ⟨by decide,
   (collide_degenerate_iff ⟨⟨0, 0⟩, ⟨1, 0⟩, 1/10⟩ ⟨⟨0, 0⟩, ⟨-1, 0⟩, 2/10⟩
     (Container.new 1)).2.1 (by decide)⟩

/-- Witness for C3 at the spec §8 concrete pair (ball at the origin moving at
(1,0) towards a stationary ball at (1,0), radii 1/10): the returned contact
time 4/5 is the least strictly-positive root of `t² − 2·t + 24/25`. -/
theorem time_to_collision_solves_quadratic_witness :
    0 < (4 : ℚ)/5
    ∧ contact_quadratic 1 (-1) (24/25) (4/5) = 0
    ∧ ∀ u, 0 < u → contact_quadratic 1 (-1) (24/25) u = 0 → (4 : ℚ)/5 ≤ u :=
  ((time_to_collision_solves_quadratic ⟨⟨0, 0⟩, ⟨1, 0⟩, 1/10⟩ ⟨⟨1, 0⟩, ⟨0, 0⟩, 1/10⟩
    (Container.new 1) (by decide) (by decide) (by decide) (by decide)).2.1 (4/5)).mp
    (by decide)

end ConcreteEvaluations

end EightBall
